import Mathlib

/- Verification of the pandas-ta indicator engine: a shallow embedding of the
   dispatch and column-resolution layer (core.py), the Super Smoother recursive
   filter (overlap/ssf.py), the day-grouped VWAP (overlap/vwap.py), the Volume
   Profile range partitioner (volume/vp.py) and the dual-backend linear
   regression (utils/_math.py), with theorems settling the specification
   claims about them. -/

namespace PandasTA

/-! Column resolution: AnalysisIndicators._get_column (core.py). -/

/-- Result of AnalysisIndicators._get_column for a string input: either a
    returned column, or a printed not-found diagnostic with no result. -/
inductive GetColumnResult
  | col (name : String) (vals : List ℚ)
  | notFound (msg : String)
deriving DecidableEq

/-- Lowercased characters of a string (Python str.lower for the ASCII names
    involved; stated on the character list so that it evaluates). -/
def pyLower (s : String) : List Char := s.data.map Char.toLower

/-- Lowercased string (Python str.lower). -/
def lowerStr (s : String) : String := String.mk (pyLower s)

/-- Indices of the columns whose name matches the candidate case-insensitively
    at the start of the name (pandas df.columns.str.match with case=False runs
    re.match, which for a plain alphanumeric candidate is a case-insensitive
    test on the beginning of the column name). -/
def matchIdx (cols : List String) (series : String) : List Nat :=
  (List.range cols.length).filter
    (fun i => (pyLower series).isPrefixOf (pyLower (cols.getD i "")))

/-- Comma-space join of the column names, as in str.join. -/
def joinComma : List String → String
  | [] => ""
  | [s] => s
  | s :: rest => s ++ ", " ++ joinComma rest

/-- The NOT_FOUND diagnostic of _get_column, naming the candidate and the
    available columns. -/
def notFoundMsg (series : String) (cols : List String) : String :=
  "[X] Ooops!!!: It's True, the series '" ++ series ++ "' not in " ++ joinComma cols

/-- AnalysisIndicators._get_column (core.py lines 147-169), string-input path:
    a column present verbatim is returned; otherwise the first fuzzy match (by
    column position) is returned, and with no match the diagnostic is printed
    and no column is produced. The explicit-Series override and the
    missing-default branches are outside the resolver claims. -/
def get_column (df : List (String × List ℚ)) (series : String) : GetColumnResult :=
  if (df.map Prod.fst).contains series then
    .col series ((df.find? (fun p => p.1 == series)).getD (series, [])).2
  else
    match matchIdx (df.map Prod.fst) series with
    | i :: _ => .col (df.getD i ("", [])).1 (df.getD i ("", [])).2
    | [] => .notFound (notFoundMsg series (df.map Prod.fst))

/-! Dispatch: AnalysisIndicators.__call__ (core.py). -/

/-- Method names defined on AnalysisIndicators and BasePandasObject (core.py).
    Note that no method named help is defined anywhere on the class. -/
def taMethods : List String := ["dema", "ema", "fwma", "hl2", "hlc3", "hma",
  "ichimoku", "midpoint", "midprice", "ohlc4", "pwma", "rma", "sma", "t3",
  "tema", "trima", "vwap", "vwma", "wma", "log_return", "percent_return",
  "kurtosis", "mad", "median", "quantile", "skew", "stdev", "variance",
  "zscore", "constants", "indicators"]

/-- Outcome of running a Python expression: a value or a raised exception. -/
inductive PyResult
  | ok (v : String)
  | exc (e : String)
deriving DecidableEq

/-- Body of the try-block of AnalysisIndicators.__call__ (core.py lines
    105-129): a string kind is lowercased and looked up with getattr (an
    unknown name raises AttributeError); the found indicator runs and may
    itself raise (indicatorResult models that run); a non-string kind falls to
    the else-branch which calls self.help(). -/
def taCallBody (kind : Option String) (indicatorResult : PyResult) : PyResult :=
  match kind with
  | some k =>
      if taMethods.contains (lowerStr k) then indicatorResult
      else .exc "AttributeError"
  | none =>
      if taMethods.contains "help" then .ok "help listing"
      else .exc "AttributeError"

/-- AnalysisIndicators.__call__ (core.py lines 104-131): the bare except around
    the body runs self.help(); because the class defines no help method that
    call itself raises AttributeError, which nothing catches. -/
def taCall (kind : Option String) (indicatorResult : PyResult) : PyResult :=
  match taCallBody kind indicatorResult with
  | .ok v => .ok v
  | .exc _ =>
      if taMethods.contains "help" then .ok "help listing"
      else .exc "AttributeError"

/-! Result attachment: AnalysisIndicators._append (core.py). -/

/-- pandas column assignment df[name] = values: overwrite in place when the
    label already exists, otherwise insert as the last column. -/
def setColumn (df : List (String × List ℚ)) (name : String) (vals : List ℚ) :
    List (String × List ℚ) :=
  if (df.map Prod.fst).contains name then
    df.map (fun p => if p.1 = name then (p.1, vals) else p)
  else df ++ [(name, vals)]

/-- Result of an indicator invocation: a named Series or a DataFrame. -/
inductive TAResult
  | series (name : String) (vals : List ℚ)
  | frame (cols : List (String × List ℚ))

/-- AnalysisIndicators._append (core.py lines 134-144): with a truthy append, a
    DataFrame result is inserted column by column and a Series result under its
    metadata name. -/
def taAppend (df : List (String × List ℚ)) (result : TAResult) (append : Bool) :
    List (String × List ℚ) :=
  if append then
    match result with
    | .series n v => setColumn df n v
    | .frame cols => cols.foldl (fun d p => setColumn d p.1 p.2) df
  else df

/-! VWAP: overlap/vwap.py. -/

/-- Modelled from the spec: hlc3, the typical price, is the arithmetic mean of
    high, low and close (overlap/hlc3.py is not under src/). -/
def hlc3 (h l c : ℚ) : ℚ := (h + l + c) / 3

/-- Running state of pandas groupby(...).cumsum(): each emitted value is the
    running total of its own key, totals carried across the pass. -/
def groupedCumsumGo (keys : List ℤ) (vals : List ℚ) (acc : ℤ → ℚ) : List ℚ :=
  match keys, vals with
  | k :: ks, v :: vs =>
      (acc k + v) :: groupedCumsumGo ks vs (fun k2 => if k2 = k then acc k + v else acc k2)
  | _, _ => []

/-- pandas groupby(key).cumsum() over equally indexed series. -/
def groupedCumsum (keys : List ℤ) (vals : List ℚ) : List ℚ :=
  groupedCumsumGo keys vals (fun _ => 0)

/-- vwap (overlap/vwap.py lines 14-24) with the default offset 0: the ratio of
    the day-grouped cumulative sum of typical price times volume to the
    day-grouped cumulative sum of volume; days are the calendar-day period
    labels of the shared index. -/
def vwap (high low close volume : List ℚ) (days : List ℤ) : List ℚ :=
  let tp := List.zipWith (fun hl c => hlc3 hl.1 hl.2 c) (high.zip low) close
  let wp := List.zipWith (fun a b => a * b) tp volume
  List.zipWith (fun a b => a / b) (groupedCumsum days wp) (groupedCumsum days volume)

/-- Sum of the values over the rows whose key equals k; applied to a prefix of
    the rows this is the day-filtered prefix sum the VWAP claim speaks about. -/
def keyFilteredSum (keys : List ℤ) (vals : List ℚ) (k : ℤ) : ℚ :=
  match keys, vals with
  | k0 :: ks, v :: vs => (if k0 = k then v else 0) + keyFilteredSum ks vs k
  | _, _ => 0

/-! Volume Profile: volume/vp.py. -/

/-- Sign of a price change. -/
def signOf (d : ℚ) : ℚ := if 0 < d then 1 else if d < 0 then -1 else 0

/-- Signs of the consecutive differences of a series, given the previous
    value. -/
def signedDiffs (prev : ℚ) : List ℚ → List ℚ
  | [] => []
  | c :: cs => signOf (c - prev) :: signedDiffs c cs

/-- Modelled from the spec: signed_series (utils/_core.py, not under src/) is
    the sign of the close-to-close change of each row, zero for a flat change,
    with the first row set to the initial value. -/
def signed_series (close : List ℚ) (initial : ℚ) : List ℚ :=
  match close with
  | [] => []
  | c0 :: rest => initial :: signedDiffs c0 rest

/-- signed_price[signed_price > 0] * volume: sign times volume where the sign
    is positive, NaN (none) on every other row. -/
def posVolume (close volume : List ℚ) : List (Option ℚ) :=
  List.zipWith (fun s v => if 0 < s then some (s * v) else none)
    (signed_series close 1) volume

/-- signed_price[signed_price < 0] * (-volume): sign times negated volume where
    the sign is negative, NaN (none) on every other row. -/
def negVolume (close volume : List ℚ) : List (Option ℚ) :=
  List.zipWith (fun s v => if s < 0 then some (s * (-v)) else none)
    (signed_series close 1) volume

/-- Rows of the concatenated close / pos_volume / neg_volume frame. -/
def vpRows (close volume : List ℚ) : List (ℚ × Option ℚ × Option ℚ) :=
  close.zip ((posVolume close volume).zip (negVolume close volume))

/-- Chunk sizes of numpy array_split: the first n % width parts get one extra
    row. -/
def arraySplitSizes (n width : ℕ) : List ℕ :=
  List.replicate (n % width) (n / width + 1) ++ List.replicate (width - n % width) (n / width)

/-- Split a list into consecutive chunks of the given sizes. -/
def splitBySizes {α : Type} : List ℕ → List α → List (List α)
  | [], _ => []
  | s :: ss, l => l.take s :: splitBySizes ss (l.drop s)

/-- numpy array_split of the rows into width contiguous parts. -/
def arraySplit {α : Type} (l : List α) (width : ℕ) : List (List α) :=
  splitBySizes (arraySplitSizes l.length width) l

/-- pandas sum over a column with NaNs: NaN entries are skipped. -/
def nansum (l : List (Option ℚ)) : ℚ := (l.map (fun o => o.getD 0)).sum

/-- Minimum of a column, none when empty (pandas min of an empty frame). -/
def listMin : List ℚ → Option ℚ
  | [] => none
  | x :: xs => some ((listMin xs).elim x (fun m => min x m))

/-- Maximum of a column, none when empty. -/
def listMax : List ℚ → Option ℚ
  | [] => none
  | x :: xs => some ((listMax xs).elim x (fun m => max x m))

/-- Mean of a column, none when empty. -/
def listMean (l : List ℚ) : Option ℚ :=
  if l.isEmpty then none else some (l.sum / l.length)

/-- One row of the Volume Profile output table. -/
structure VPBucket where
  low_close : Option ℚ
  mean_close : Option ℚ
  high_close : Option ℚ
  pos_volume : ℚ
  neg_volume : ℚ
  total_volume : ℚ
deriving DecidableEq

/-- Aggregation of one chronological chunk of rows (min, mean and max of
    close, NaN-skipping sums of the signed volumes, and their total). -/
def aggBucket (rows : List (ℚ × Option ℚ × Option ℚ)) : VPBucket :=
  let closes := rows.map Prod.fst
  let pos := nansum (rows.map (fun r => r.2.1))
  let neg := nansum (rows.map (fun r => r.2.2))
  { low_close := listMin closes
    mean_close := listMean closes
    high_close := listMax closes
    pos_volume := pos
    neg_volume := neg
    total_volume := pos + neg }

/-- Modelled from the spec: verify_series with a minimum length (utils/_core.py
    is not under src/): a series shorter than the indicator requirement is
    treated as absent, making the indicator yield no result. -/
def verify_series_min (s : List ℚ) (minLength : ℕ) : Option (List ℚ) :=
  if s.length < minLength then none else some s

/-- vp (volume/vp.py lines 19-58) in chronological mode (default
    sort_close = False): sign the volume by the close-to-close change, split
    the rows into width contiguous chunks and aggregate each chunk. -/
def vp (close volume : List ℚ) (width : ℕ) : Option (List VPBucket) :=
  let w := if 0 < width then width else 10
  match verify_series_min close w, verify_series_min volume w with
  | some c, some v => some ((arraySplit (vpRows c v) w).map aggBucket)
  | _, _ => none

/-- Sum of the total_volume column of a Volume Profile result. -/
def bucketTotals (o : Option (List VPBucket)) : Option ℚ :=
  o.map (fun bs => (bs.map VPBucket.total_volume).sum)

/-- Number of buckets of a Volume Profile result. -/
def bucketCount (o : Option (List VPBucket)) : Option ℕ :=
  o.map List.length

/-! Regression engine: utils/_math.py. The numerical payload is embedded over
    the real numbers, the exact idealization of the floating-point arithmetic
    the source runs in. -/

noncomputable section

/-- Mean of a series of reals (pandas Series.mean, numpy mean). -/
def rmean (l : List ℝ) : ℝ := l.sum / l.length

/-- Centered second moment of x: the sum of squared deviations from the
    mean. -/
def centeredSxx (x : List ℝ) : ℝ := (x.map (fun a => (a - rmean x) ^ 2)).sum

/-- Centered mixed moment of x and y. -/
def centeredSxy (x y : List ℝ) : ℝ :=
  (List.zipWith (fun a b => (a - rmean x) * (b - rmean y)) x y).sum

/-- numpy corrcoef(x, y)[0, 1]: the Pearson correlation coefficient, the
    centered mixed moment over the square roots of the centered second
    moments. -/
def npCorrcoefXY (x y : List ℝ) : ℝ :=
  centeredSxy x y / (Real.sqrt (centeredSxx x) * Real.sqrt (centeredSxx y))

/-- RegressionResult: intercept a, slope b, correlation r, t-statistic t and
    the fitted line. -/
structure RegressionResult where
  a : ℝ
  b : ℝ
  r : ℝ
  t : ℝ
  line : List ℝ

/-- The numpy backend _linear_regression_np (utils/_math.py lines 181-204):
    slope from the raw moments, intercept from the means, Pearson correlation
    from numpy corrcoef, and t = r / sqrt((1 - r^2) / (m - 2)). -/
def linear_regression_np (x y : List ℝ) : RegressionResult :=
  let m : ℝ := x.length
  let x_sum := x.sum
  let y_sum := y.sum
  let r := npCorrcoefXY x y
  let r_mixture := m * (List.zipWith (fun a b => a * b) x y).sum - x_sum * y_sum
  let b := r_mixture / (m * (x.map (fun a => a * a)).sum - x_sum * x_sum)
  let a := rmean y - b * rmean x
  { a := a
    b := b
    r := r
    t := r / Real.sqrt ((1 - r * r) / (m - 2))
    line := x.map (fun v => a + b * v) }

/-- The sklearn backend _linear_regression_sklearn (utils/_math.py lines
    206-221). sklearn is an external library, embedded through its documented
    contract: LinearRegression.fit computes the ordinary-least-squares
    intercept and slope (centered-moment closed form), and score returns the
    coefficient of determination R^2 = 1 - SSres / SStot, which the source
    stores in the r field. -/
def linear_regression_sklearn (x y : List ℝ) : RegressionResult :=
  let b := centeredSxy x y / centeredSxx x
  let a := rmean y - b * rmean x
  let r := 1 - (List.zipWith (fun xv yv => (yv - (a + b * xv)) ^ 2) x y).sum
             / ((y.map (fun yv => (yv - rmean y) ^ 2)).sum)
  { a := a
    b := b
    r := r
    t := r / Real.sqrt ((1 - r * r) / ((x.length : ℝ) - 2))
    line := x.map (fun v => a + b * v) }

/-- linear_regression (utils/_math.py lines 68-82): mismatched observation
    counts are reported with the printed diagnostic and produce no result;
    otherwise the backend selected by the sklearn capability flag runs. -/
def linear_regression (sklearnAvailable : Bool) (x y : List ℝ) :
    Except String RegressionResult :=
  if x.length = y.length then
    .ok (if sklearnAvailable then linear_regression_sklearn x y
         else linear_regression_np x y)
  else
    .error ("[X] Linear Regression X and y observations do not match: "
            ++ toString x.length ++ " != " ++ toString y.length)

/-! Super Smoother filter: overlap/ssf.py. -/

/-- Python positional indexing as used by Series.iloc: a negative index wraps
    to the tail of the series, and an index out of bounds on either side
    raises (none). -/
def pyGet (l : List ℝ) (k : ℤ) : Option ℝ :=
  if 0 ≤ k then l.get? k.toNat
  else if 0 ≤ (l.length : ℤ) + k then l.get? ((l.length : ℤ) + k).toNat
  else none

/-- Seed buffer of ssf: a copy of close with the positions from poles on set
    to zero (ssf = close.copy(); ssf[poles:] = 0). -/
def ssfSeed (poles : ℕ) : ℕ → List ℝ → List ℝ
  | _, [] => []
  | i, v :: rest => (if i < poles then v else 0) :: ssfSeed poles (i + 1) rest

/-- Loop of the poles = 2 branch (overlap/ssf.py lines 44-45): for i in
    range(0, m), overwrite position i with c1 * close[i] + b1 * out[i - 1] +
    a1 * out[i - 2], the previous outputs read with Python wrap-around
    indexing. -/
def ssfLoop2 (c1 b1 a1 : ℝ) (close : List ℝ) : ℕ → ℕ → List ℝ → Option (List ℝ)
  | _, 0, out => some out
  | i, fuel + 1, out =>
      match close.get? i, pyGet out ((i : ℤ) - 1), pyGet out ((i : ℤ) - 2) with
      | some ci, some o1, some o2 =>
          ssfLoop2 c1 b1 a1 close (i + 1) fuel (out.set i (c1 * ci + b1 * o1 + a1 * o2))
      | _, _, _ => none

/-- Loop of the poles = 3 branch (overlap/ssf.py lines 34-35). -/
def ssfLoop3 (c1 c2 c3 c4 : ℝ) (close : List ℝ) : ℕ → ℕ → List ℝ → Option (List ℝ)
  | _, 0, out => some out
  | i, fuel + 1, out =>
      match close.get? i, pyGet out ((i : ℤ) - 1), pyGet out ((i : ℤ) - 2),
            pyGet out ((i : ℤ) - 3) with
      | some ci, some o1, some o2, some o3 =>
          ssfLoop3 c1 c2 c3 c4 close (i + 1) fuel
            (out.set i (c1 * ci + c2 * o1 + c3 * o2 + c4 * o3))
      | _, _, _, _ => none

/-- Argument x = pi * sqrt 2 / length of the 2-pole coefficients. -/
def ssf2x (length : ℕ) : ℝ := Real.pi * Real.sqrt 2 / length

/-- a0 = exp(-x) of the 2-pole branch. -/
def ssf2a0 (length : ℕ) : ℝ := Real.exp (-(ssf2x length))

/-- a1 = -a0 * a0 of the 2-pole branch. -/
def ssf2a1 (length : ℕ) : ℝ := -(ssf2a0 length) * ssf2a0 length

/-- b1 = 2 * a0 * cos x of the 2-pole branch. -/
def ssf2b1 (length : ℕ) : ℝ := 2 * ssf2a0 length * Real.cos (ssf2x length)

/-- c1 = 1 - a1 - b1 of the 2-pole branch. -/
def ssf2c1 (length : ℕ) : ℝ := 1 - ssf2a1 length - ssf2b1 length

/-- Argument x = pi / length of the 3-pole coefficients. -/
def ssf3x (length : ℕ) : ℝ := Real.pi / length

/-- a0 = exp(-x) of the 3-pole branch. -/
def ssf3a0 (length : ℕ) : ℝ := Real.exp (-(ssf3x length))

/-- b0 = 2 * a0 * cos(sqrt 3 * x) of the 3-pole branch. -/
def ssf3b0 (length : ℕ) : ℝ := 2 * ssf3a0 length * Real.cos (Real.sqrt 3 * ssf3x length)

/-- c0 = a0 * a0 of the 3-pole branch. -/
def ssf3c0 (length : ℕ) : ℝ := ssf3a0 length * ssf3a0 length

/-- c4 = c0 * c0 of the 3-pole branch. -/
def ssf3c4 (length : ℕ) : ℝ := ssf3c0 length * ssf3c0 length

/-- c3 = -c0 * (1 + b0) of the 3-pole branch. -/
def ssf3c3 (length : ℕ) : ℝ := -(ssf3c0 length) * (1 + ssf3b0 length)

/-- c2 = c0 + b0 of the 3-pole branch. -/
def ssf3c2 (length : ℕ) : ℝ := ssf3c0 length + ssf3b0 length

/-- c1 = 1 - c2 - c3 - c4 of the 3-pole branch. -/
def ssf3c1 (length : ℕ) : ℝ :=
  1 - ssf3c2 length - ssf3c3 length - ssf3c4 length

/-- ssf (overlap/ssf.py lines 10-55) with the default offset 0: validate
    length (default 10) and poles (default 2), seed the output buffer, then run
    the recurrence loop of the selected branch over every index from 0. -/
def ssf (close : List ℝ) (length poles : ℕ) : Option (List ℝ) :=
  let L := if 0 < length then length else 10
  let p := if poles = 2 ∨ poles = 3 then poles else 2
  if p = 3 then
    ssfLoop3 (ssf3c1 L) (ssf3c2 L) (ssf3c3 L) (ssf3c4 L) close 0 close.length
      (ssfSeed 3 0 close)
  else
    ssfLoop2 (ssf2c1 L) (ssf2b1 L) (ssf2a1 L) close 0 close.length
      (ssfSeed 2 0 close)

end

/-! Theorems. -/

/-- C9: for every pair of input series of unequal lengths, linear_regression
    reports the mismatch with the printed diagnostic (naming both sizes) and
    produces no RegressionResult, whichever backend is available; the
    embedding is a total function, so the call does not crash. -/
theorem linear_regression_length_mismatch_reported (flag : Bool) (x y : List ℝ)
    (h : x.length ≠ y.length) :
    linear_regression flag x y =
      .error ("[X] Linear Regression X and y observations do not match: "
              ++ toString x.length ++ " != " ++ toString y.length) := by
  simp [linear_regression, h]

/-- Witness for C9 at x = [1, 2], y = [1]. -/
theorem linear_regression_length_mismatch_reported_witness :
    linear_regression true [(1 : ℝ), 2] [(1 : ℝ)] =
      .error "[X] Linear Regression X and y observations do not match: 2 != 1" := by
  simpa using linear_regression_length_mismatch_reported true [(1 : ℝ), 2] [(1 : ℝ)]
    (by decide)

/-- C7: the dispatch boundary does catch the exception raised inside the
    dispatched invocation, but the handler calls self.help() and the class
    defines no help method, so an AttributeError is raised by the handler and
    propagates to the caller: shown for an unknown kind, for a known indicator
    whose resolution or computation raises, and for the no-kind help path that
    the class docstring documents as showing general help. -/
theorem taCall_attribute_error_escapes :
    taCall (some "xyz") (.ok "value") = .exc "AttributeError" ∧
    taCall (some "sma") (.exc "ColumnNotFoundError") = .exc "AttributeError" ∧
    taCall none (.ok "value") = .exc "AttributeError" := by decide

theorem lookup_overwrite_ne (l : List (String × List ℚ)) (n : String)
    (v : List ℚ) (c : String) (h : c ≠ n) :
    List.lookup c (l.map (fun p => if p.1 = n then (p.1, v) else p)) =
      List.lookup c l := by
  induction l with
  | nil => rfl
  | cons p rest ih =>
      obtain ⟨k, w⟩ := p
      by_cases hp : k = n
      · subst hp
        have hc : (c == k) = false := beq_eq_false_iff_ne.mpr h
        simp only [List.map_cons, eq_self_iff_true, if_true]
        rw [List.lookup, List.lookup, hc, ih]
      · by_cases hck : c = k
        · subst hck
          simp only [List.map_cons, if_neg hp]
          rw [List.lookup, List.lookup, beq_self_eq_true]
        · have hc : (c == k) = false := beq_eq_false_iff_ne.mpr hck
          simp only [List.map_cons, if_neg hp]
          rw [List.lookup, List.lookup, hc, ih]

theorem lookup_append_ne (l : List (String × List ℚ)) (n : String)
    (v : List ℚ) (c : String) (h : c ≠ n) :
    List.lookup c (l ++ [(n, v)]) = List.lookup c l := by
  induction l with
  | nil => simp [List.lookup, beq_eq_false_iff_ne.mpr h]
  | cons p rest ih =>
      obtain ⟨k, w⟩ := p
      by_cases hck : c = k
      · subst hck
        simp only [List.cons_append]
        rw [List.lookup, List.lookup, beq_self_eq_true]
      · simp only [List.cons_append]
        rw [List.lookup, List.lookup, beq_eq_false_iff_ne.mpr hck, ih]

theorem setColumn_lookup_ne (df : List (String × List ℚ)) (n : String)
    (v : List ℚ) (c : String) (h : c ≠ n) :
    List.lookup c (setColumn df n v) = List.lookup c df := by
  unfold setColumn
  split
  · exact lookup_overwrite_ne df n v c h
  · exact lookup_append_ne df n v c h

theorem lookup_overwrite_self (l : List (String × List ℚ)) (n : String)
    (v : List ℚ) (hmem : n ∈ l.map Prod.fst) :
    List.lookup n (l.map (fun p => if p.1 = n then (p.1, v) else p)) = some v := by
  induction l with
  | nil => simp at hmem
  | cons p rest ih =>
      obtain ⟨k, w⟩ := p
      by_cases hp : k = n
      · subst hp
        simp only [List.map_cons, eq_self_iff_true, if_true]
        rw [List.lookup, beq_self_eq_true]
      · have hmem' : n ∈ rest.map Prod.fst := by
          simp only [List.map_cons, List.mem_cons] at hmem
          exact hmem.resolve_left (fun hh => hp hh.symm)
        have hnk : (n == k) = false := beq_eq_false_iff_ne.mpr (fun hh => hp hh.symm)
        simp only [List.map_cons, if_neg hp]
        rw [List.lookup, hnk, ih hmem']

theorem lookup_append_self (l : List (String × List ℚ)) (n : String)
    (v : List ℚ) (hmem : n ∉ l.map Prod.fst) :
    List.lookup n (l ++ [(n, v)]) = some v := by
  induction l with
  | nil => simp [List.lookup]
  | cons p rest ih =>
      obtain ⟨k, w⟩ := p
      simp only [List.map_cons, List.mem_cons] at hmem
      push_neg at hmem
      have hnk : (n == k) = false := beq_eq_false_iff_ne.mpr hmem.1
      simp only [List.cons_append]
      rw [List.lookup, hnk, ih hmem.2]

theorem setColumn_lookup_self (df : List (String × List ℚ)) (n : String)
    (v : List ℚ) :
    List.lookup n (setColumn df n v) = some v := by
  unfold setColumn
  split
  · rename_i hmem
    exact lookup_overwrite_self df n v (by simpa using hmem)
  · rename_i hmem
    exact lookup_append_self df n v (by simpa using hmem)

theorem map_fst_overwrite (l : List (String × List ℚ)) (n : String) (v : List ℚ) :
    (l.map (fun p => if p.1 = n then (p.1, v) else p)).map Prod.fst =
      l.map Prod.fst := by
  induction l with
  | nil => rfl
  | cons p rest ih =>
      obtain ⟨k, w⟩ := p
      by_cases hp : k = n <;> simp [hp, ih]

theorem setColumn_map_fst (df : List (String × List ℚ)) (n : String) (v : List ℚ) :
    (setColumn df n v).map Prod.fst =
      if (df.map Prod.fst).contains n then df.map Prod.fst
      else df.map Prod.fst ++ [n] := by
  unfold setColumn
  split
  · exact map_fst_overwrite df n v
  · rw [List.map_append]
    rfl

theorem overwrite_overwrite (l : List (String × List ℚ)) (n : String)
    (v v' : List ℚ) :
    (l.map (fun p => if p.1 = n then (p.1, v) else p)).map
        (fun p => if p.1 = n then (p.1, v') else p) =
      l.map (fun p => if p.1 = n then (p.1, v') else p) := by
  rw [List.map_map]
  apply List.map_congr_left
  intro p _
  obtain ⟨k, w⟩ := p
  by_cases hp : k = n <;> simp [hp]

theorem overwrite_of_not_mem (l : List (String × List ℚ)) (n : String)
    (v : List ℚ) (h : n ∉ l.map Prod.fst) :
    l.map (fun p => if p.1 = n then (p.1, v) else p) = l := by
  induction l with
  | nil => rfl
  | cons p rest ih =>
      obtain ⟨k, w⟩ := p
      simp only [List.map_cons, List.mem_cons] at h
      push_neg at h
      have hk : ¬ k = n := fun hh => h.1 hh.symm
      simp [hk, ih h.2]

theorem setColumn_twice (df : List (String × List ℚ)) (n : String)
    (v v' : List ℚ) :
    setColumn (setColumn df n v) n v' = setColumn df n v' := by
  unfold setColumn
  by_cases hmem : (df.map Prod.fst).contains n
  · rw [if_pos hmem, if_pos hmem]
    have h2 : ((df.map (fun p => if p.1 = n then (p.1, v) else p)).map
        Prod.fst).contains n := by
      rw [map_fst_overwrite]
      exact hmem
    rw [if_pos h2]
    exact overwrite_overwrite df n v v'
  · rw [if_neg hmem, if_neg hmem]
    have h2 : (((df ++ [(n, v)]).map Prod.fst)).contains n := by simp
    rw [if_pos h2, List.map_append]
    have h3 : n ∉ df.map Prod.fst := by simpa using hmem
    rw [overwrite_of_not_mem df n v' h3]
    simp

theorem foldl_setColumn_lookup_ne (cols : List (String × List ℚ)) :
    ∀ (df : List (String × List ℚ)) (c : String),
      ¬ c ∈ cols.map Prod.fst →
      List.lookup c (cols.foldl (fun d p => setColumn d p.1 p.2) df) =
        List.lookup c df := by
  induction cols with
  | nil => intro df c _; rfl
  | cons p rest ih =>
      intro df c hc
      simp only [List.map_cons, List.mem_cons] at hc
      push_neg at hc
      simp only [List.foldl_cons]
      rw [ih _ c hc.2, setColumn_lookup_ne _ _ _ _ hc.1]

/-- C8: with append=True a Series result is written into the table under its
    metadata name; every column with a different name keeps its values and its
    rows, the order of pre-existing column names is unchanged (a new name goes
    to the end, an existing one stays in place), a DataFrame result inserted
    column-by-column likewise leaves every unrelated column untouched, and a
    second append under the same name overwrites the column instead of
    duplicating it. -/
theorem taAppend_preserves_and_overwrites
    (df : List (String × List ℚ)) (n : String) (v v' : List ℚ)
    (c : String) (hc : c ≠ n) (cols : List (String × List ℚ))
    (hcols : ¬ c ∈ cols.map Prod.fst) :
    List.lookup c (taAppend df (.series n v) true) = List.lookup c df ∧
    List.lookup n (taAppend df (.series n v) true) = some v ∧
    (taAppend df (.series n v) true).map Prod.fst =
      (if (df.map Prod.fst).contains n then df.map Prod.fst
       else df.map Prod.fst ++ [n]) ∧
    List.lookup c (taAppend df (.frame cols) true) = List.lookup c df ∧
    taAppend (taAppend df (.series n v) true) (.series n v') true =
      taAppend df (.series n v') true := by
  refine ⟨?_, ?_, ?_, ?_, ?_⟩
  · simpa [taAppend] using setColumn_lookup_ne df n v c hc
  · simpa [taAppend] using setColumn_lookup_self df n v
  · simpa [taAppend] using setColumn_map_fst df n v
  · simpa [taAppend] using foldl_setColumn_lookup_ne cols df c hcols
  · simpa [taAppend] using setColumn_twice df n v v'

/-- Witness for C8: appending X5 to a two-column table preserves the close
    column, stores the new column, appends the name at the end, and appending
    twice overwrites. -/
theorem taAppend_preserves_and_overwrites_witness :
    List.lookup "close" (taAppend [("close", [1]), ("open", [2])]
        (.series "X5" [7]) true) = some [1] ∧
    List.lookup "X5" (taAppend [("close", [1]), ("open", [2])]
        (.series "X5" [7]) true) = some [7] ∧
    taAppend (taAppend [("close", [1]), ("open", [2])] (.series "X5" [7]) true)
        (.series "X5" [8]) true =
      taAppend [("close", [1]), ("open", [2])] (.series "X5" [8]) true := by
  have h := taAppend_preserves_and_overwrites [("close", [1]), ("open", [2])]
    "X5" [7] [8] "close" (by decide) [] (by simp)
  exact ⟨h.1, h.2.1, h.2.2.2.2⟩

/-- C6 counterexample: with table columns High and HighLow, the request high
    fuzzy-matches two columns case-insensitively (the match is ambiguous), yet
    the resolver returns the first matching column instead of reporting a
    ColumnNotFoundError, so the zero-or-ambiguous clause of the claim fails on
    the code. -/
theorem get_column_ambiguous_returns_first :
    (matchIdx ["High", "HighLow"] "high").length = 2 ∧
    get_column [("High", [1]), ("HighLow", [2])] "high" = .col "High" [1] := by
  decide

/-- C6 amended: for a string request not present verbatim among the columns,
    the resolver fuzzy-matches all column names case-insensitively; with no
    match it reports the diagnostic naming the candidate and the available
    columns and yields no column, and with one or more matches it returns the
    first matching column in column order (so the exactly-one case behaves as
    claimed, but an ambiguous match returns the first candidate instead of
    reporting an error). -/
theorem get_column_fuzzy_amended (df : List (String × List ℚ)) (series : String)
    (h : series ∉ df.map Prod.fst) :
    (matchIdx (df.map Prod.fst) series = [] →
      get_column df series = .notFound (notFoundMsg series (df.map Prod.fst))) ∧
    (∀ i rest, matchIdx (df.map Prod.fst) series = i :: rest →
      get_column df series = .col (df.getD i ("", [])).1 (df.getD i ("", [])).2) := by
  have h0 : ¬ ((df.map Prod.fst).contains series = true) := by simp [h]
  constructor
  · intro h1
    unfold get_column
    rw [if_neg h0, h1]
  · intro i rest h1
    unfold get_column
    rw [if_neg h0, h1]

theorem zipWith_get?_eq {α β γ : Type} (f : α → β → γ) :
    ∀ (a : List α) (b : List β) (i : ℕ) (x : α) (y : β),
      a.get? i = some x → b.get? i = some y →
      (List.zipWith f a b).get? i = some (f x y) := by
  intro a
  induction a with
  | nil =>
      intro b i x y hx hy
      simp at hx
  | cons a0 as ih =>
      intro b i x y hx hy
      cases b with
      | nil => simp at hy
      | cons b0 bs =>
          cases i with
          | zero =>
              simp only [List.get?_cons_zero, Option.some.injEq] at hx hy
              simp [List.zipWith, hx, hy]
          | succ j =>
              simpa using ih bs j x y (by simpa using hx) (by simpa using hy)

theorem groupedCumsumGo_get? :
    ∀ (keys : List ℤ) (vals : List ℚ) (acc : ℤ → ℚ) (i : ℕ),
      i < keys.length → i < vals.length →
      (groupedCumsumGo keys vals acc).get? i =
        some (acc (keys.getD i 0) +
          keyFilteredSum (keys.take (i + 1)) (vals.take (i + 1)) (keys.getD i 0)) := by
  intro keys
  induction keys with
  | nil =>
      intro vals acc i hk hv
      simp at hk
  | cons k ks ih =>
      intro vals acc i hk hv
      cases vals with
      | nil => simp at hv
      | cons v vs =>
          cases i with
          | zero => simp [groupedCumsumGo, keyFilteredSum]
          | succ j =>
              have hk' : j < ks.length := by simpa using hk
              have hv' : j < vs.length := by simpa using hv
              have hrec := ih vs (fun k2 => if k2 = k then acc k + v else acc k2) j hk' hv'
              simp only [groupedCumsumGo, List.get?_cons_succ]
              rw [hrec]
              simp only [List.getD_cons_succ, List.take_succ_cons, keyFilteredSum,
                Option.some.injEq]
              rcases eq_or_ne (ks.getD j 0) k with hK | hK
              · simp only [hK, if_true]
                ring
              · rw [if_neg hK, if_neg (fun hh => hK hh.symm)]
                ring

theorem groupedCumsum_get? (keys : List ℤ) (vals : List ℚ) (i : ℕ)
    (hk : i < keys.length) (hv : i < vals.length) :
    (groupedCumsum keys vals).get? i =
      some (keyFilteredSum (keys.take (i + 1)) (vals.take (i + 1))
        (keys.getD i 0)) := by
  have h := groupedCumsumGo_get? keys vals (fun _ => 0) i hk hv
  simpa [groupedCumsum] using h

/-- C4: at every row, vwap equals the prefix sum of typical price times volume
    over the rows of the same calendar day up to that row, divided by the
    same-day prefix sum of volume: both accumulations restart at each day
    boundary, and the typical price is the three-way mean
    (high + low + close) / 3, not (high + low + 2 * close) / 4. -/
theorem vwap_day_grouped_prefix_ratio
    (high low close volume : List ℚ) (days : List ℤ)
    (hh : high.length = volume.length) (hl : low.length = volume.length)
    (hc : close.length = volume.length) (hd : days.length = volume.length)
    (i : ℕ) (hi : i < volume.length) :
    (vwap high low close volume days).get? i =
      some (keyFilteredSum (days.take (i + 1))
              (((List.zipWith (fun hl2 c => (hl2.1 + hl2.2 + c) / 3)
                  (high.zip low) close).zipWith (fun a b => a * b)
                volume).take (i + 1))
              (days.getD i 0)
            / keyFilteredSum (days.take (i + 1)) (volume.take (i + 1))
              (days.getD i 0)) := by
  have hdl : i < days.length := by rw [hd]; exact hi
  have hwl : i < ((List.zipWith (fun hl2 c => hlc3 hl2.1 hl2.2 c)
      (high.zip low) close).zipWith (fun a b => a * b) volume).length := by
    have hlen : ((List.zipWith (fun hl2 c => hlc3 hl2.1 hl2.2 c)
        (high.zip low) close).zipWith (fun a b => a * b) volume).length
          = volume.length := by
      simp [List.length_zipWith, List.length_zip, hh, hl, hc]
    rw [hlen]
    exact hi
  have hA := groupedCumsum_get? days
    ((List.zipWith (fun hl2 c => hlc3 hl2.1 hl2.2 c)
      (high.zip low) close).zipWith (fun a b => a * b) volume) i hdl hwl
  have hB := groupedCumsum_get? days volume i hdl hi
  exact zipWith_get?_eq (fun a b => a / b) _ _ i _ _ hA hB

/-- Witness for C4 on a two-row single-day table: high [2, 4], low [0, 2],
    close [1, 3], volume [10, 30], days [0, 0]; the second vwap value is
    (1 * 10 + 3 * 30) / (10 + 30) = 5 / 2. -/
theorem vwap_day_grouped_prefix_ratio_witness :
    (vwap [2, 4] [0, 2] [1, 3] [10, 30] [0, 0]).get? 1 = some (5 / 2) := by
  have h := vwap_day_grouped_prefix_ratio [2, 4] [0, 2] [1, 3] [10, 30] [0, 0]
    rfl rfl rfl rfl 1 (by norm_num)
  rw [h]
  norm_num [keyFilteredSum, hlc3]

theorem signedDiffs_length : ∀ (l : List ℚ) (p : ℚ),
    (signedDiffs p l).length = l.length := by
  intro l
  induction l with
  | nil => intro p; rfl
  | cons c cs ih => intro p; simp [signedDiffs, ih]

theorem signed_series_length (close : List ℚ) (i : ℚ) :
    (signed_series close i).length = close.length := by
  cases close with
  | nil => rfl
  | cons c0 rest => simp [signed_series, signedDiffs_length]

theorem vpRows_length (close volume : List ℚ)
    (hl : close.length = volume.length) :
    (vpRows close volume).length = close.length := by
  simp [vpRows, posVolume, negVolume, List.length_zip, List.length_zipWith,
    signed_series_length, hl]

theorem arraySplitSizes_sum (n width : ℕ) : (arraySplitSizes n width).sum = n := by
  unfold arraySplitSizes
  rcases Nat.eq_zero_or_pos width with hw | hw
  · subst hw
    simp [Nat.mod_zero, Nat.div_zero]
  · have hr : n % width ≤ width := le_of_lt (Nat.mod_lt n hw)
    have hqr := Nat.div_add_mod n width
    have h1 : (width - n % width) * (n / width)
        = width * (n / width) - n % width * (n / width) :=
      Nat.sub_mul width (n % width) (n / width)
    have h2 : n % width * (n / width) ≤ width * (n / width) :=
      Nat.mul_le_mul_right (n / width) hr
    have h3 : n % width * (n / width + 1) = n % width * (n / width) + n % width := by
      ring
    simp only [List.sum_append, List.sum_replicate, smul_eq_mul]
    omega

theorem arraySplitSizes_length (n width : ℕ) (hw : 0 < width) :
    (arraySplitSizes n width).length = width := by
  have hr : n % width < width := Nat.mod_lt n hw
  simp only [arraySplitSizes, List.length_append, List.length_replicate]
  omega

theorem splitBySizes_length {α : Type} :
    ∀ (ss : List ℕ) (l : List α), (splitBySizes ss l).length = ss.length := by
  intro ss
  induction ss with
  | nil => intro l; rfl
  | cons s ss' ih => intro l; simp [splitBySizes, ih]

theorem splitBySizes_flatten {α : Type} :
    ∀ (ss : List ℕ) (l : List α), (splitBySizes ss l).flatten = l.take ss.sum := by
  intro ss
  induction ss with
  | nil => intro l; simp [splitBySizes]
  | cons s ss' ih =>
      intro l
      simp only [splitBySizes, List.flatten_cons, ih, List.sum_cons]
      rw [List.take_add]

theorem arraySplit_flatten {α : Type} (l : List α) (width : ℕ) :
    (arraySplit l width).flatten = l := by
  unfold arraySplit
  rw [splitBySizes_flatten, arraySplitSizes_sum, List.take_length]

theorem arraySplit_length {α : Type} (l : List α) (width : ℕ) (hw : 0 < width) :
    (arraySplit l width).length = width := by
  unfold arraySplit
  rw [splitBySizes_length, arraySplitSizes_length _ _ hw]

theorem arraySplit_counts {α : Type} (l : List α) (width : ℕ) :
    ((arraySplit l width).map List.length).sum = l.length := by
  rw [← List.length_flatten, arraySplit_flatten]

theorem sum_map_add {α : Type} (l : List α) (f g : α → ℚ) :
    (l.map (fun x => f x + g x)).sum = (l.map f).sum + (l.map g).sum := by
  induction l with
  | nil => simp
  | cons a as ih =>
      simp only [List.map_cons, List.sum_cons, ih]
      ring

theorem aggBucket_total (rows : List (ℚ × Option ℚ × Option ℚ)) :
    (aggBucket rows).total_volume =
      (rows.map (fun r => r.2.1.getD 0 + r.2.2.getD 0)).sum := by
  rw [sum_map_add]
  simp [aggBucket, nansum, List.map_map, Function.comp_def]

theorem sum_map_sum_flatten {α : Type} (L : List (List α)) (f : α → ℚ) :
    (L.map (fun c => (c.map f).sum)).sum = ((L.flatten).map f).sum := by
  induction L with
  | nil => simp
  | cons c cs ih => simp [ih]

theorem bucketTotals_sum (rows : List (ℚ × Option ℚ × Option ℚ)) (width : ℕ) :
    (((arraySplit rows width).map aggBucket).map VPBucket.total_volume).sum =
      (rows.map (fun r => r.2.1.getD 0 + r.2.2.getD 0)).sum := by
  rw [List.map_map]
  simp only [Function.comp_def]
  rw [List.map_congr_left (fun c _ => aggBucket_total c)]
  rw [sum_map_sum_flatten, arraySplit_flatten]

theorem vpRows_contrib_sum :
    ∀ (cs ss vs : List ℚ), cs.length = vs.length → ss.length = vs.length →
      (∀ s ∈ ss, s = 1 ∨ s = -1 ∨ s = 0) →
      ((cs.zip ((List.zipWith (fun s v => if 0 < s then some (s * v) else none) ss vs).zip
          (List.zipWith (fun s v => if s < 0 then some (s * (-v)) else none) ss vs))).map
        (fun r => r.2.1.getD 0 + r.2.2.getD 0)).sum =
      (List.zipWith (fun s v => if s = 0 then 0 else v) ss vs).sum := by
  intro cs
  induction cs with
  | nil =>
      intro ss vs h1 h2 hs
      have hvs : vs = [] := by
        cases vs
        · rfl
        · simp at h1
      subst hvs
      simp
  | cons c cs' ih =>
      intro ss vs h1 h2 hs
      cases vs with
      | nil => simp at h1
      | cons v vs' =>
          cases ss with
          | nil => simp at h2
          | cons s ss' =>
              have hs0 := hs s (by simp)
              have hstail : ∀ x ∈ ss', x = 1 ∨ x = -1 ∨ x = 0 :=
                fun x hx => hs x (by simp [hx])
              have h1' : cs'.length = vs'.length := by simpa using h1
              have h2' : ss'.length = vs'.length := by simpa using h2
              simp only [List.zipWith_cons_cons, List.zip_cons_cons, List.map_cons,
                List.sum_cons]
              rw [ih ss' vs' h1' h2' hstail]
              rcases hs0 with h | h | h <;> subst h <;> norm_num

theorem signOf_values (d : ℚ) : signOf d = 1 ∨ signOf d = -1 ∨ signOf d = 0 := by
  unfold signOf
  split_ifs <;> simp

theorem signOf_eq_zero_iff (d : ℚ) : signOf d = 0 ↔ d = 0 := by
  unfold signOf
  split_ifs with h1 h2
  · exact iff_of_false one_ne_zero
      (fun h => by rw [h] at h1; exact lt_irrefl 0 h1)
  · exact iff_of_false (by norm_num)
      (fun h => by rw [h] at h2; exact lt_irrefl 0 h2)
  · exact iff_of_true rfl (le_antisymm (not_lt.mp h1) (not_lt.mp h2))

theorem signOf_pos_iff (d : ℚ) : 0 < signOf d ↔ 0 < d := by
  unfold signOf
  split_ifs with h1 h2
  · exact iff_of_true one_pos h1
  · exact iff_of_false (by norm_num) h1
  · exact iff_of_false (lt_irrefl 0) h1

theorem signOf_neg_iff (d : ℚ) : signOf d < 0 ↔ d < 0 := by
  unfold signOf
  split_ifs with h1 h2
  · exact iff_of_false (by norm_num) (fun h => absurd h1 (asymm h))
  · exact iff_of_true (by norm_num) h2
  · exact iff_of_false (lt_irrefl 0) h2

theorem signedDiffs_mem : ∀ (l : List ℚ) (p s : ℚ), s ∈ signedDiffs p l →
    s = 1 ∨ s = -1 ∨ s = 0 := by
  intro l
  induction l with
  | nil =>
      intro p s hs
      simp [signedDiffs] at hs
  | cons c cs ih =>
      intro p s hs
      simp only [signedDiffs, List.mem_cons] at hs
      rcases hs with h | h
      · exact h ▸ signOf_values (c - p)
      · exact ih c s h

theorem signed_series_mem (close : List ℚ) (s : ℚ)
    (hs : s ∈ signed_series close 1) : s = 1 ∨ s = -1 ∨ s = 0 := by
  cases close with
  | nil => simp [signed_series] at hs
  | cons c0 rest =>
      simp only [signed_series, List.mem_cons] at hs
      rcases hs with h | h
      · exact Or.inl h
      · exact signedDiffs_mem rest c0 s h

theorem signedDiffs_ne_zero : ∀ (l : List ℚ) (p : ℚ),
    List.Chain' (fun a b => a ≠ b) (p :: l) → ∀ s ∈ signedDiffs p l, s ≠ 0 := by
  intro l
  induction l with
  | nil =>
      intro p _ s hs
      simp [signedDiffs] at hs
  | cons c cs ih =>
      intro p hch s hs
      rw [List.chain'_cons] at hch
      simp only [signedDiffs, List.mem_cons] at hs
      rcases hs with h | h
      · subst h
        rw [Ne, signOf_eq_zero_iff, sub_eq_zero]
        exact fun hh => hch.1 hh.symm
      · exact ih c hch.2 s h

theorem signed_series_ne_zero (close : List ℚ)
    (hch : List.Chain' (fun a b => a ≠ b) close) :
    ∀ s ∈ signed_series close 1, s ≠ 0 := by
  cases close with
  | nil =>
      intro s hs
      simp [signed_series] at hs
  | cons c0 rest =>
      intro s hs
      simp only [signed_series, List.mem_cons] at hs
      rcases hs with h | h
      · rw [h]; norm_num
      · exact signedDiffs_ne_zero rest c0 hch s h

theorem zipWith_ne_zero_sum : ∀ (ss vs : List ℚ), ss.length = vs.length →
    (∀ s ∈ ss, s ≠ 0) →
    (List.zipWith (fun s v => if s = 0 then 0 else v) ss vs).sum = vs.sum := by
  intro ss
  induction ss with
  | nil =>
      intro vs h _
      have hvs : vs = [] := by
        cases vs
        · rfl
        · simp at h
      subst hvs
      rfl
  | cons s ss' ih =>
      intro vs h hs
      cases vs with
      | nil => simp at h
      | cons v vs' =>
          have hs0 : s ≠ 0 := hs s (by simp)
          simp only [List.zipWith_cons_cons, List.sum_cons, if_neg hs0]
          rw [ih vs' (by simpa using h) (fun x hx => hs x (by simp [hx]))]

theorem vp_totals (close volume : List ℚ) (width : ℕ) (hw : 0 < width)
    (hn : width ≤ close.length) (hl : close.length = volume.length) :
    vp close volume width =
      some ((arraySplit (vpRows close volume) width).map aggBucket) ∧
    bucketTotals (vp close volume width) =
      some ((List.zipWith (fun s v => if s = 0 then 0 else v)
        (signed_series close 1) volume).sum) := by
  have hvp : vp close volume width =
      some ((arraySplit (vpRows close volume) width).map aggBucket) := by
    simp only [vp, verify_series_min, if_pos hw]
    rw [if_neg (show ¬ close.length < width by omega),
        if_neg (show ¬ volume.length < width by omega)]
  refine ⟨hvp, ?_⟩
  rw [bucketTotals, hvp, Option.map_some']
  rw [bucketTotals_sum]
  have hss : (signed_series close 1).length = volume.length := by
    rw [signed_series_length, hl]
  exact congrArg some (vpRows_contrib_sum close (signed_series close 1) volume hl
    hss (signed_series_mem close))

/-- C5 counterexample: close [1, 1, 2, 3], volume [5, 7, 9, 11], width 2: the
    second row has zero close-to-close change, its volume 7 lands in neither
    the positive nor the negative column, and the buckets' positive+negative
    totals sum to 25, not the total input volume 32. -/
theorem vp_flat_row_volume_lost :
    bucketCount (vp [1, 1, 2, 3] [5, 7, 9, 11] 2) = some 2 ∧
    bucketTotals (vp [1, 1, 2, 3] [5, 7, 9, 11] 2) = some 25 ∧
    ([(5 : ℚ), 7, 9, 11].sum = 32) ∧ (25 : ℚ) ≠ 32 := by
  obtain ⟨hvp, htot⟩ := vp_totals [1, 1, 2, 3] [5, 7, 9, 11] 2
    (by norm_num) (by norm_num) rfl
  refine ⟨?_, ?_, by norm_num, by norm_num⟩
  · rw [bucketCount, hvp, Option.map_some']
    rw [List.length_map, arraySplit_length _ _ (by norm_num : (0 : ℕ) < 2)]
  · rw [htot]
    norm_num [signed_series, signedDiffs, signOf]

/-- C5 amended: in chronological mode the Volume Profile yields exactly width
    buckets whose row counts sum to the input row count; the buckets'
    positive+negative volume totals sum to the volume over the rows of
    nonzero signed price change (first row signed positive), which equals the
    total input volume exactly when no row after the first repeats the
    previous close. -/
theorem vp_chronological_partition_amended (close volume : List ℚ) (width : ℕ)
    (hw : 0 < width) (hn : width ≤ close.length)
    (hl : close.length = volume.length) :
    bucketCount (vp close volume width) = some width ∧
    ((arraySplit (vpRows close volume) width).map List.length).sum =
      close.length ∧
    bucketTotals (vp close volume width) =
      some ((List.zipWith (fun s v => if s = 0 then 0 else v)
        (signed_series close 1) volume).sum) ∧
    (close.Chain' (fun a b => a ≠ b) →
      bucketTotals (vp close volume width) = some volume.sum) := by
  obtain ⟨hvp, htot⟩ := vp_totals close volume width hw hn hl
  refine ⟨?_, ?_, htot, ?_⟩
  · rw [bucketCount, hvp, Option.map_some']
    rw [List.length_map, arraySplit_length _ _ hw]
  · rw [arraySplit_counts, vpRows_length close volume hl]
  · intro hch
    rw [htot, zipWith_ne_zero_sum _ _
      (by rw [signed_series_length, hl]) (signed_series_ne_zero close hch)]

/-- Witness for C5 amended at close [1, 2, 1], volume [4, 5, 6], width 3 (no
    flat rows): 3 buckets and full volume 15 reconstructed. -/
theorem vp_chronological_partition_amended_witness :
    bucketCount (vp [1, 2, 1] [4, 5, 6] 3) = some 3 ∧
    bucketTotals (vp [1, 2, 1] [4, 5, 6] 3) = some 15 := by
  have h := vp_chronological_partition_amended [1, 2, 1] [4, 5, 6] 3
    (by norm_num) (by norm_num) rfl
  refine ⟨h.1, ?_⟩
  have h4 := h.2.2.2 (by norm_num [List.chain'_cons])
  rw [h4]
  norm_num

theorem get?_eq_some_getD {α : Type} (l : List α) (i : ℕ) (d : α)
    (h : i < l.length) : l.get? i = some (l.getD i d) := by
  cases hx : l.get? i with
  | none =>
      rw [List.get?_eq_none] at hx
      omega
  | some a =>
      have ha : l.getD i d = a := by
        unfold List.getD
        rw [hx]
        rfl
      rw [ha]

theorem signedDiffs_get? :
    ∀ (rest : List ℚ) (c0 : ℚ) (i : ℕ), i < rest.length →
      (signedDiffs c0 rest).get? i =
        some (signOf (rest.getD i 0 - (c0 :: rest).getD i 0)) := by
  intro rest
  induction rest with
  | nil =>
      intro c0 i hi
      simp at hi
  | cons c cs ih =>
      intro c0 i hi
      cases i with
      | zero => simp [signedDiffs]
      | succ j =>
          have hj : j < cs.length := by simpa using hi
          simpa [signedDiffs] using ih c j hj

theorem signed_series_get? (close : List ℚ) (i : ℕ) (hi : i + 1 < close.length) :
    (signed_series close 1).get? (i + 1) =
      some (signOf (close.getD (i + 1) 0 - close.getD i 0)) := by
  cases close with
  | nil => simp at hi
  | cons c0 rest =>
      have hi' : i < rest.length := by simpa using hi
      simpa [signed_series] using signedDiffs_get? rest c0 i hi'

/-- C10: a row after the first whose signed price change is zero is NaN in
    both signed-volume columns and so contributes to neither pos_volume,
    neg_volume nor total_volume of any bucket (the bucket totals sum only the
    volume of rows of nonzero sign); a later row enters the positive column
    exactly when its change is strictly positive and the negative column
    exactly when its change is strictly negative, and the first row is signed
    positive. -/
theorem vp_flat_rows_excluded (close volume : List ℚ)
    (hl : close.length = volume.length) :
    (∀ i, i + 1 < close.length → close.getD (i + 1) 0 = close.getD i 0 →
      (posVolume close volume).get? (i + 1) = some none ∧
      (negVolume close volume).get? (i + 1) = some none) ∧
    (∀ i, i + 1 < close.length →
      ((∃ w, (posVolume close volume).get? (i + 1) = some (some w)) ↔
        close.getD i 0 < close.getD (i + 1) 0) ∧
      ((∃ w, (negVolume close volume).get? (i + 1) = some (some w)) ↔
        close.getD (i + 1) 0 < close.getD i 0)) ∧
    (0 < close.length →
      (posVolume close volume).get? 0 = some (some (volume.getD 0 0))) ∧
    (∀ width, 0 < width → width ≤ close.length →
      bucketTotals (vp close volume width) =
        some ((List.zipWith (fun s v => if s = 0 then 0 else v)
          (signed_series close 1) volume).sum)) := by
  have hvlen : ∀ i, i + 1 < close.length → volume.get? (i + 1)
      = some (volume.getD (i + 1) 0) :=
    fun i hi => get?_eq_some_getD volume (i + 1) 0 (by omega)
  have hpos : ∀ i, i + 1 < close.length →
      (posVolume close volume).get? (i + 1) =
        some (if 0 < signOf (close.getD (i + 1) 0 - close.getD i 0) then
          some (signOf (close.getD (i + 1) 0 - close.getD i 0) *
            volume.getD (i + 1) 0) else none) := by
    intro i hi
    exact zipWith_get?_eq _ _ _ (i + 1) _ _ (signed_series_get? close i hi)
      (hvlen i hi)
  have hneg : ∀ i, i + 1 < close.length →
      (negVolume close volume).get? (i + 1) =
        some (if signOf (close.getD (i + 1) 0 - close.getD i 0) < 0 then
          some (signOf (close.getD (i + 1) 0 - close.getD i 0) *
            (-(volume.getD (i + 1) 0))) else none) := by
    intro i hi
    exact zipWith_get?_eq _ _ _ (i + 1) _ _ (signed_series_get? close i hi)
      (hvlen i hi)
  refine ⟨?_, ?_, ?_, fun width hw hn => (vp_totals close volume width hw hn hl).2⟩
  · intro i hi hflat
    have hz : signOf (close.getD (i + 1) 0 - close.getD i 0) = 0 := by
      rw [signOf_eq_zero_iff, sub_eq_zero]
      exact hflat
    rw [hpos i hi, hneg i hi, hz]
    norm_num
  · intro i hi
    constructor
    · rw [hpos i hi]
      rcases lt_trichotomy (signOf (close.getD (i + 1) 0 - close.getD i 0)) 0
        with hs | hs | hs
      · rw [if_neg (asymm hs)]
        simp only [Option.some.injEq]
        constructor
        · rintro ⟨w, hw⟩
          cases hw
        · intro hlt
          exact absurd ((signOf_pos_iff _).mpr (sub_pos.mpr hlt)) (asymm hs)
      · rw [if_neg (by rw [hs]; exact lt_irrefl 0)]
        simp only [Option.some.injEq]
        constructor
        · rintro ⟨w, hw⟩
          cases hw
        · intro hlt
          have := (signOf_pos_iff _).mpr (sub_pos.mpr hlt)
          rw [hs] at this
          exact absurd this (lt_irrefl 0)
      · rw [if_pos hs]
        constructor
        · intro _
          exact sub_pos.mp ((signOf_pos_iff _).mp hs)
        · intro _
          exact ⟨_, rfl⟩
    · rw [hneg i hi]
      rcases lt_trichotomy (signOf (close.getD (i + 1) 0 - close.getD i 0)) 0
        with hs | hs | hs
      · rw [if_pos hs]
        constructor
        · intro _
          exact sub_neg.mp ((signOf_neg_iff _).mp hs)
        · intro _
          exact ⟨_, rfl⟩
      · rw [if_neg (by rw [hs]; exact lt_irrefl 0)]
        simp only [Option.some.injEq]
        constructor
        · rintro ⟨w, hw⟩
          cases hw
        · intro hlt
          have := (signOf_neg_iff _).mpr (sub_neg.mpr hlt)
          rw [hs] at this
          exact absurd this (lt_irrefl 0)
      · rw [if_neg (asymm hs)]
        simp only [Option.some.injEq]
        constructor
        · rintro ⟨w, hw⟩
          cases hw
        · intro hlt
          exact absurd ((signOf_neg_iff _).mpr (sub_neg.mpr hlt)) (asymm hs)
  · intro hlen
    cases close with
    | nil => simp at hlen
    | cons c0 rest =>
        cases volume with
        | nil => simp at hl
        | cons v0 vrest =>
            simp [posVolume, signed_series]

/-- Witness for C10 at close [1, 1, 2], volume [5, 7, 9]: the flat second row
    is NaN in both signed-volume columns, and with width 3 the bucket totals
    sum only the nonzero-sign volume 5 + 9 = 14. -/
theorem vp_flat_rows_excluded_witness :
    (posVolume [1, 1, 2] [5, 7, 9]).get? 1 = some none ∧
    (negVolume [1, 1, 2] [5, 7, 9]).get? 1 = some none ∧
    bucketTotals (vp [1, 1, 2] [5, 7, 9] 3) = some 14 := by
  have h := vp_flat_rows_excluded [1, 1, 2] [5, 7, 9] rfl
  have h1 := h.1 0 (by norm_num) (by norm_num)
  have h4 := h.2.2.2 3 (by norm_num) (by norm_num)
  refine ⟨h1.1, h1.2, ?_⟩
  rw [h4]
  norm_num [signed_series, signedDiffs, signOf]

/-- Witness for C6 amended: on columns Open, High, Low, Close the request
    close resolves to the Close column (unique fuzzy match), and the absent
    request Volume is reported with the diagnostic naming it and the available
    columns. -/
theorem get_column_fuzzy_amended_witness :
    get_column [("Open", [1]), ("High", [2]), ("Low", [3]), ("Close", [4])]
        "close" = .col "Close" [4] ∧
    get_column [("Open", [1]), ("High", [2]), ("Low", [3]), ("Close", [4])]
        "Volume" =
      .notFound (notFoundMsg "Volume" ["Open", "High", "Low", "Close"]) := by
  constructor
  · have h := (get_column_fuzzy_amended
      [("Open", [1]), ("High", [2]), ("Low", [3]), ("Close", [4])] "close"
      (by decide)).2 3 [] (by decide)
    simpa using h
  · have h := (get_column_fuzzy_amended
      [("Open", [1]), ("High", [2]), ("Low", [3]), ("Close", [4])] "Volume"
      (by decide)).1 (by decide)
    simpa using h

theorem centered_mixed_expand :
    ∀ (x y : List ℝ) (c d : ℝ), x.length = y.length →
      (List.zipWith (fun a b => (a - c) * (b - d)) x y).sum =
        (List.zipWith (fun a b => a * b) x y).sum - d * x.sum - c * y.sum +
          x.length * (c * d) := by
  intro x
  induction x with
  | nil =>
      intro y c d h
      have hy : y = [] := by
        cases y with
        | nil => rfl
        | cons b bs => simp at h
      subst hy
      simp
  | cons a as ih =>
      intro y c d h
      cases y with
      | nil => simp at h
      | cons b bs =>
          have h' : as.length = bs.length := by simpa using h
          simp only [List.zipWith_cons_cons, List.sum_cons, List.length_cons,
            ih bs c d h']
          push_cast
          ring

theorem centered_sq_expand :
    ∀ (x : List ℝ) (c : ℝ),
      (x.map (fun a => (a - c) ^ 2)).sum =
        (x.map (fun a => a * a)).sum - 2 * c * x.sum + x.length * c ^ 2 := by
  intro x
  induction x with
  | nil => intro c; simp
  | cons a as ih =>
      intro c
      simp only [List.map_cons, List.sum_cons, List.length_cons, ih]
      push_cast
      ring

theorem centeredSxx_nonneg (x : List ℝ) : 0 ≤ centeredSxx x := by
  apply List.sum_nonneg
  intro v hv
  rcases List.mem_map.mp hv with ⟨a, _, rfl⟩
  positivity

theorem m_mul_centeredSxy (x y : List ℝ) (h : x.length = y.length) :
    (x.length : ℝ) * centeredSxy x y =
      (x.length : ℝ) * (List.zipWith (fun a b => a * b) x y).sum -
        x.sum * y.sum := by
  rcases eq_or_ne x.length 0 with h0 | h0
  · have hx : x = [] := List.length_eq_zero.mp h0
    subst hx
    have hy : y = [] := by
      cases y with
      | nil => rfl
      | cons b bs => simp at h
    subst hy
    simp [centeredSxy]
  · have hm : (x.length : ℝ) ≠ 0 := Nat.cast_ne_zero.mpr h0
    rw [centeredSxy, centered_mixed_expand x y _ _ h, rmean, rmean, ← h]
    field_simp
    ring

theorem m_mul_centeredSxx (x : List ℝ) :
    (x.length : ℝ) * centeredSxx x =
      (x.length : ℝ) * (x.map (fun a => a * a)).sum - x.sum * x.sum := by
  rcases eq_or_ne x.length 0 with h0 | h0
  · have hx : x = [] := List.length_eq_zero.mp h0
    subst hx
    simp [centeredSxx]
  · have hm : (x.length : ℝ) ≠ 0 := Nat.cast_ne_zero.mpr h0
    rw [centeredSxx, centered_sq_expand x _, rmean]
    field_simp
    ring

theorem regression_b_eq (x y : List ℝ) (h : x.length = y.length) :
    (linear_regression_np x y).b = (linear_regression_sklearn x y).b := by
  have hnp : (linear_regression_np x y).b =
      ((x.length : ℝ) * (List.zipWith (fun a b => a * b) x y).sum -
        x.sum * y.sum) /
      ((x.length : ℝ) * (x.map (fun a => a * a)).sum - x.sum * x.sum) := rfl
  have hsk : (linear_regression_sklearn x y).b =
      centeredSxy x y / centeredSxx x := rfl
  rw [hnp, hsk, ← m_mul_centeredSxy x y h, ← m_mul_centeredSxx x]
  rcases eq_or_ne x.length 0 with h0 | h0
  · have hx : x = [] := List.length_eq_zero.mp h0
    subst hx
    have hy : y = [] := by
      cases y with
      | nil => rfl
      | cons b bs => simp at h
    subst hy
    simp [centeredSxy, centeredSxx]
  · exact mul_div_mul_left _ _ (Nat.cast_ne_zero.mpr h0)

theorem regression_a_eq (x y : List ℝ) (h : x.length = y.length) :
    (linear_regression_np x y).a = (linear_regression_sklearn x y).a := by
  have hnp : (linear_regression_np x y).a =
      rmean y - (linear_regression_np x y).b * rmean x := rfl
  have hsk : (linear_regression_sklearn x y).a =
      rmean y - (linear_regression_sklearn x y).b * rmean x := rfl
  rw [hnp, hsk, regression_b_eq x y h]

theorem regression_line_eq (x y : List ℝ) (h : x.length = y.length) :
    (linear_regression_np x y).line = (linear_regression_sklearn x y).line := by
  have hnp : (linear_regression_np x y).line =
      x.map (fun v => (linear_regression_np x y).a +
        (linear_regression_np x y).b * v) := rfl
  have hsk : (linear_regression_sklearn x y).line =
      x.map (fun v => (linear_regression_sklearn x y).a +
        (linear_regression_sklearn x y).b * v) := rfl
  rw [hnp, hsk, regression_a_eq x y h, regression_b_eq x y h]

theorem SSres_expand :
    ∀ (x y : List ℝ) (c d k : ℝ), x.length = y.length →
      (List.zipWith (fun u w => ((w - d) - k * (u - c)) ^ 2) x y).sum =
        (y.map (fun w => (w - d) ^ 2)).sum -
          2 * k * (List.zipWith (fun u w => (u - c) * (w - d)) x y).sum +
          k ^ 2 * (x.map (fun u => (u - c) ^ 2)).sum := by
  intro x
  induction x with
  | nil =>
      intro y c d k h
      have hy : y = [] := by
        cases y with
        | nil => rfl
        | cons b bs => simp at h
      subst hy
      simp
  | cons a as ih =>
      intro y c d k h
      cases y with
      | nil => simp at h
      | cons b bs =>
          have h' : as.length = bs.length := by simpa using h
          simp only [List.zipWith_cons_cons, List.map_cons, List.sum_cons,
            ih bs c d k h']
          ring

theorem regression_r_relation (x y : List ℝ) (h : x.length = y.length)
    (hx : centeredSxx x ≠ 0) (hy : centeredSxx y ≠ 0) :
    (linear_regression_sklearn x y).r = (linear_regression_np x y).r ^ 2 := by
  have hsk : (linear_regression_sklearn x y).r =
      1 - (List.zipWith (fun xv yv => (yv -
            ((rmean y - centeredSxy x y / centeredSxx x * rmean x) +
              centeredSxy x y / centeredSxx x * xv)) ^ 2) x y).sum /
          centeredSxx y := rfl
  have hnp : (linear_regression_np x y).r =
      centeredSxy x y /
        (Real.sqrt (centeredSxx x) * Real.sqrt (centeredSxx y)) := rfl
  have hfun : (fun xv yv => (yv -
        ((rmean y - centeredSxy x y / centeredSxx x * rmean x) +
          centeredSxy x y / centeredSxx x * xv)) ^ 2)
      = (fun u w => ((w - rmean y) -
          (centeredSxy x y / centeredSxx x) * (u - rmean x)) ^ 2) := by
    funext u w
    ring
  rw [hsk, hnp, hfun,
    SSres_expand x y (rmean x) (rmean y) (centeredSxy x y / centeredSxx x) h]
  have hx' : 0 ≤ centeredSxx x := centeredSxx_nonneg x
  have hy' : 0 ≤ centeredSxx y := centeredSxx_nonneg y
  have hrsq : (centeredSxy x y /
        (Real.sqrt (centeredSxx x) * Real.sqrt (centeredSxx y))) ^ 2
      = centeredSxy x y ^ 2 / (centeredSxx x * centeredSxx y) := by
    rw [div_pow, mul_pow, Real.sq_sqrt hx', Real.sq_sqrt hy']
  rw [hrsq]
  have hSyy : (y.map (fun w => (w - rmean y) ^ 2)).sum = centeredSxx y := rfl
  have hSxx : (x.map (fun u => (u - rmean x) ^ 2)).sum = centeredSxx x := rfl
  have hSxy : (List.zipWith (fun u w => (u - rmean x) * (w - rmean y)) x y).sum
      = centeredSxy x y := rfl
  rw [hSyy, hSxx, hSxy]
  field_simp
  ring

/-- C1 counterexample: on the spec's own test input x = [1, 2, 3, 4, 5],
    y = [2, 4, 5, 4, 5], the sklearn backend's r field is the coefficient of
    determination 3 / 5, while the numpy backend's r is the Pearson
    correlation 6 / sqrt 60 = 0.7745..., so the two backends are not
    numerically equivalent on the r field (nor, consequently, on t). -/
theorem regression_backends_r_differ :
    (linear_regression_sklearn [1, 2, 3, 4, 5] [2, 4, 5, 4, 5]).r = 3 / 5 ∧
    (linear_regression_np [1, 2, 3, 4, 5] [2, 4, 5, 4, 5]).r ≠
      (linear_regression_sklearn [1, 2, 3, 4, 5] [2, 4, 5, 4, 5]).r := by
  have hsk : (linear_regression_sklearn [1, 2, 3, 4, 5] [2, 4, 5, 4, 5]).r
      = 3 / 5 := by
    norm_num [linear_regression_sklearn, centeredSxy, centeredSxx, rmean]
  have hnp : (linear_regression_np [1, 2, 3, 4, 5] [2, 4, 5, 4, 5]).r
      = 6 / (Real.sqrt 10 * Real.sqrt 6) := by
    norm_num [linear_regression_np, npCorrcoefXY, centeredSxy, centeredSxx,
      rmean]
  refine ⟨hsk, ?_⟩
  rw [hnp, hsk]
  have h1 : Real.sqrt 10 * Real.sqrt 6 = Real.sqrt 60 := by
    rw [← Real.sqrt_mul (by norm_num : (0 : ℝ) ≤ 10)]
    norm_num
  have h3 : 0 < Real.sqrt 60 := Real.sqrt_pos.mpr (by norm_num)
  have h2 : Real.sqrt 60 < 8 :=
    (Real.sqrt_lt' (by norm_num : (0 : ℝ) < 8)).mpr (by norm_num)
  have h4 : (3 : ℝ) / 5 < 6 / Real.sqrt 60 := by
    have h5 : (6 : ℝ) / 8 < 6 / Real.sqrt 60 :=
      div_lt_div_of_pos_left (by norm_num) h3 h2
    linarith
  rw [h1]
  exact (ne_of_lt h4).symm

/-- C1 amended: for every pair of equal-length inputs the two backends agree
    exactly on intercept a, slope b and the fitted line; on nondegenerate
    inputs (both centered second moments nonzero) the sklearn backend's r
    field equals the square of the numpy backend's Pearson r (the coefficient
    of determination), so the r fields (and with them the t fields) of the
    two backends agree only where that square equals r itself. -/
theorem regression_backends_amended (x y : List ℝ) (h : x.length = y.length) :
    (linear_regression_np x y).a = (linear_regression_sklearn x y).a ∧
    (linear_regression_np x y).b = (linear_regression_sklearn x y).b ∧
    (linear_regression_np x y).line = (linear_regression_sklearn x y).line ∧
    (centeredSxx x ≠ 0 → centeredSxx y ≠ 0 →
      (linear_regression_sklearn x y).r = (linear_regression_np x y).r ^ 2) :=
  ⟨regression_a_eq x y h, regression_b_eq x y h, regression_line_eq x y h,
    fun hx hy => regression_r_relation x y h hx hy⟩

/-- Witness for C1 amended at x = [1, 2, 3, 4, 5], y = [2, 4, 5, 4, 5]: equal
    slopes and the squared-correlation relation between the r fields. -/
theorem regression_backends_amended_witness :
    (linear_regression_np [1, 2, 3, 4, 5] [2, 4, 5, 4, 5]).b =
      (linear_regression_sklearn [1, 2, 3, 4, 5] [2, 4, 5, 4, 5]).b ∧
    (linear_regression_sklearn [1, 2, 3, 4, 5] [2, 4, 5, 4, 5]).r =
      (linear_regression_np [1, 2, 3, 4, 5] [2, 4, 5, 4, 5]).r ^ 2 := by
  have h := regression_backends_amended [1, 2, 3, 4, 5] [2, 4, 5, 4, 5] rfl
  exact ⟨h.2.1, h.2.2.2
    (by norm_num [centeredSxx, rmean])
    (by norm_num [centeredSxx, rmean])⟩

theorem ssfLoop2_eval_two (c1 b1 a1 x0 x1 : ℝ) :
    ssfLoop2 c1 b1 a1 [x0, x1] 0 2 [x0, x1] =
      some [c1 * x0 + b1 * x1 + a1 * x0,
            c1 * x1 + b1 * (c1 * x0 + b1 * x1 + a1 * x0) + a1 * x1] := by
  norm_num [ssfLoop2, pyGet, List.set_cons_zero, List.set_cons_succ]

theorem ssf_eval_two (x0 x1 : ℝ) :
    ssf [x0, x1] 10 2 =
      some [ssf2c1 10 * x0 + ssf2b1 10 * x1 + ssf2a1 10 * x0,
            ssf2c1 10 * x1 +
              ssf2b1 10 * (ssf2c1 10 * x0 + ssf2b1 10 * x1 + ssf2a1 10 * x0) +
              ssf2a1 10 * x1] := by
  have hseed : ssfSeed 2 0 [x0, x1] = [x0, x1] := by norm_num [ssfSeed]
  simp only [ssf]
  norm_num [hseed, ssfLoop2_eval_two]

theorem ssf2x_pos10 : 0 < ssf2x 10 := by
  unfold ssf2x
  have h2 : 0 < Real.sqrt 2 := Real.sqrt_pos.mpr (by norm_num)
  exact div_pos (mul_pos Real.pi_pos h2) (by norm_num)

theorem ssf2x_lt10 : ssf2x 10 < Real.pi / 3 := by
  unfold ssf2x
  have h10 : ((10 : ℕ) : ℝ) = 10 := by norm_num
  rw [h10]
  have hs : Real.sqrt 2 < 10 / 3 :=
    (Real.sqrt_lt' (by norm_num : (0 : ℝ) < 10 / 3)).mpr (by norm_num)
  have hpi := Real.pi_pos
  rw [div_lt_div_iff₀ (by norm_num : (0 : ℝ) < 10) (by norm_num : (0 : ℝ) < 3)]
  nlinarith

theorem ssf2b1_pos10 : 0 < ssf2b1 10 := by
  have hx0 := ssf2x_pos10
  have hx1 := ssf2x_lt10
  have hpi := Real.pi_pos
  have hcos : 0 < Real.cos (ssf2x 10) := by
    apply Real.cos_pos_of_mem_Ioo
    constructor
    · linarith
    · linarith
  have hexp : 0 < ssf2a0 10 := by
    unfold ssf2a0
    exact Real.exp_pos _
  unfold ssf2b1
  have h2 : (0 : ℝ) < 2 := by norm_num
  exact mul_pos (mul_pos h2 hexp) hcos

/-- C2: the code violates the seeding clause of the claim. With the default
    length 10, poles 2 and input [1, 0], the loop of ssf starts at index 0 and
    overwrites the seeded rows: the first output equals
    c1 * 1 + b1 * 0 + a1 * 1 = 1 - b1 with b1 > 0, not the first input 1
    (while the output length does equal the input length as claimed). -/
theorem ssf_seed_overwritten :
    ∃ l, ssf [(1 : ℝ), 0] 10 2 = some l ∧ l.length = 2 ∧ l.get? 0 ≠ some 1 := by
  refine ⟨_, ssf_eval_two 1 0, rfl, ?_⟩
  simp only [List.get?_cons_zero, Ne, Option.some.injEq]
  intro hval
  have hc : ssf2c1 10 = 1 - ssf2a1 10 - ssf2b1 10 := rfl
  rw [hc] at hval
  have hb := ssf2b1_pos10
  ring_nf at hval
  linarith

/-- C3: at index 0 the recurrence reads the previous outputs at offsets -1 and
    -2, which wrap around to the tail of the series: with input [0, 1] the
    first output is c1 * 0 + b1 * 1 + a1 * 0 = b1, which is nonzero and
    differs from the first output 0 on input [0, 0], although the two inputs
    agree at index 0: the output at a seed index depends on the value at the
    end of the series through wrap-around indexing. -/
theorem ssf_wraparound_tail_dependence :
    ∃ l l', ssf [(0 : ℝ), 1] 10 2 = some l ∧ ssf [(0 : ℝ), 0] 10 2 = some l' ∧
      l.get? 0 ≠ l'.get? 0 := by
  refine ⟨_, _, ssf_eval_two 0 1, ssf_eval_two 0 0, ?_⟩
  simp only [List.get?_cons_zero, Ne, Option.some.injEq]
  intro hval
  have hb := ssf2b1_pos10
  ring_nf at hval
  linarith

end PandasTA
